import Mathlib

/-!
Shallow embedding of the `pat` HTTP router (an improved std `http.ServeMux`
with pat-like capture patterns).  Go strings are byte sequences; all inputs
here are ASCII, so we model a Go string as a `List Char` and Go's byte
indices coincide with list indices.  Go's fallible operations (out-of-range
indexing / slicing, which panic at runtime) are modelled with `Option` /
an explicit `fault` constructor.
-/

namespace Pat

/-- Go string, modelled as a list of characters. -/
abbrev Str := List Char

/-- Go `strings.Split(s, sep)` for a single-character separator.
`splitOn '/' "" = [""]` and `splitOn '/' "/"` = `["", ""]`, as in Go. -/
def splitOn (sep : Char) : Str → List Str
  | [] => [[]]
  | c :: cs =>
    match splitOn sep cs with
    | [] => [[]]
    | seg :: rest => if c = sep then [] :: seg :: rest else (c :: seg) :: rest

/-- Source `pathMatchFlat`: exact patterns (no capture marker).
Go checks `pattern[n-1] != '/'`; the caller guarantees `pattern` is nonempty,
so `getLastD` with a dummy default models `pattern[n-1]`.  The Go guard
`len(path) >= n` protects the slice `path[:n]` (which would otherwise panic);
`List.take` is total, but we keep the guard faithfully. -/
def pathMatchFlat (pattern path : Str) : Bool :=
  if pattern.getLastD ' ' ≠ '/' then pattern == path
  else decide (pattern.length ≤ path.length) && (path.take pattern.length == pattern)

/-- One iteration of the segment loop in source `pathMatchSplat`:
`strings.Index(item, ":")` is `-1` (here `none`), `0`, or positive. -/
def segMatch (item seg : Str) : Bool :=
  match item.findIdx? (fun c => c = ':') with
  | none => item == seg
  | some 0 => true
  | some (k + 1) => (item.take (k + 1)).isPrefixOf seg

/-- The `for i, item := range _pattern` loop of source `pathMatchSplat`,
checking `item` against `_path[i]` pairwise.  Under the arity guards of
`pathMatchSplat` the index `i` is always in range, so the case where the
path list is exhausted first is unreachable there. -/
def matchLoop : List Str → List Str → Bool
  | [], _ => true
  | _ :: _, [] => false
  | item :: items, seg :: segs => segMatch item seg && matchLoop items segs

/-- Source `pathMatchSplat`: patterns with capture groups.
Note that for a pattern with a trailing slash the Go code decrements
`slashes` first and then slices `_pattern[:slashes]`, so it drops the final
empty segment AND the last real segment of the pattern. -/
def pathMatchSplat (pattern path : Str) : Bool :=
  let slashes0 := pattern.count '/'
  let slashes := if pattern.getLastD ' ' = '/' then slashes0 - 1 else slashes0
  let pat :=
    if pattern.getLastD ' ' = '/' then (splitOn '/' pattern).take slashes
    else splitOn '/' pattern
  let pth := splitOn '/' path
  if pattern.getLastD ' ' = '/' then
    if pth.length ≤ slashes then false else matchLoop pat pth
  else
    if path.count '/' ≠ slashes then false else matchLoop pat pth

/-- Source `pathMatch`: empty pattern matches nothing; a pattern containing
the capture marker dispatches to `pathMatchSplat`, otherwise to
`pathMatchFlat`. -/
def pathMatch (pattern path : Str) : Bool :=
  if pattern.length = 0 then false
  else if pattern.contains ':' then pathMatchSplat pattern path
  else pathMatchFlat pattern path

/-- Result of source `parseSplats`: Go returns `nil` when the pattern has no
capture marker, a non-nil `url.Values` otherwise — unless an out-of-range
index or slice makes the Go code panic at runtime (`fault`). -/
inductive SplatsOut where
  | fault
  | nilValues
  | vals (bindings : List (Str × Str))
deriving DecidableEq, Repr

/-- The `for i, item := range _pattern` loop of source `parseSplats`.
When `item` contains no marker the loop body touches nothing; otherwise it
reads `_path[i]` (a panic — `none` — when `i` is out of range) and, for a
prefixed capture at index `k+1`, slices `_path[i][k+1:]` (a panic when
`k+1 > len(_path[i])`).  Bindings are accumulated in traversal order, as
`url.Values.Add` appends. -/
def splatsLoop : List Str → List Str → Option (List (Str × Str))
  | [], _ => some []
  | item :: items, [] =>
    match item.findIdx? (fun c => c = ':') with
    | none => splatsLoop items []
    | some _ => none
  | item :: items, seg :: segs =>
    match item.findIdx? (fun c => c = ':') with
    | none => splatsLoop items segs
    | some 0 => (splatsLoop items segs).map (fun vs => (item, seg) :: vs)
    | some (k + 1) =>
      if k + 1 ≤ seg.length then
        (splatsLoop items segs).map (fun vs => (item.drop (k + 1), seg.drop (k + 1)) :: vs)
      else none

/-- Source `parseSplats`. -/
def parseSplats (pattern path : Str) : SplatsOut :=
  if pattern.contains ':' then
    match splatsLoop (splitOn '/' pattern) (splitOn '/' path) with
    | none => .fault
    | some vs => .vals vs
  else .nilValues

/-- An HTTP handler.  Handlers are opaque invocables in the source; we tag
the ones the router itself constructs: `http.RedirectHandler(url, code)` and
`http.NotFoundHandler()`.  User-supplied handlers are opaque (`user`). -/
inductive Handler where
  | user (id : Nat)
  | redirect (url : Str) (code : Nat)
  | notFound
deriving DecidableEq, Repr

/-- Source `muxEntry`.  `h = none` models a nil `http.Handler`; a missing
map key yields the zero value `⟨false, none⟩`. -/
structure muxEntry where
  explicit : Bool
  h : Option Handler
deriving DecidableEq, Repr

/-- The `map[string]muxEntry` field of `ServeMux`, as an association list
with at most one binding per key; the list order stands in for Go's
(arbitrary) map iteration order. -/
abbrev Mux := List (Str × muxEntry)

/-- Go map read `mux.m[k]`: the entry, or the zero value when absent. -/
def lookupEntry : Mux → Str → muxEntry
  | [], _ => ⟨false, none⟩
  | (k', v') :: rest, k => if k' = k then v' else lookupEntry rest k

/-- Go map write `mux.m[k] = v`: replaces the binding or appends a new one. -/
def insertEntry : Mux → Str → muxEntry → Mux
  | [], k, v => [(k, v)]
  | (k', v') :: rest, k, v =>
    if k' = k then (k, v) :: rest else (k', v') :: insertEntry rest k v

/-- The loop of source `(*ServeMux).match`: scan every entry, keep the
matching pattern of greatest length seen so far (Go:
`if h == nil || len(k) > n`).  Accumulator `(n, pat, h)` starts as
`(0, "", nil)`. -/
def matchLoopMux (path : Str) : Mux → Nat → Str → Option Handler → Str × Option Handler
  | [], _, pat, h => (pat, h)
  | (k, v) :: rest, n, pat, h =>
    if pathMatch k path = true then
      if h = none ∨ n < k.length then matchLoopMux path rest k.length k v.h
      else matchLoopMux path rest n pat h
    else matchLoopMux path rest n pat h

/-- Source `(*ServeMux).match`: most-specific (longest) pattern wins. -/
def matchMux (mux : Mux) (path : Str) : Str × Option Handler :=
  matchLoopMux path mux 0 [] none

/-- Source `(*ServeMux).handler`: host-qualified match first, then plain
path; a miss yields `http.NotFoundHandler()`; on a hit, captures parsed
from the plain path are merged into the request's query (we return them
alongside the handler).  `none` models the Go runtime panic that
`parseSplats` can raise. -/
def muxHandler (mux : Mux) (host path : Str) : Option (Handler × Option (List (Str × Str))) :=
  let hostMatch := matchMux mux (host ++ path)
  let res := if hostMatch.2 = none then matchMux mux path else hostMatch
  match res.2 with
  | none => some (.notFound, none)
  | some hh =>
    match parseSplats res.1 path with
    | .fault => none
    | .nilValues => some (hh, none)
    | .vals vs => some (hh, some vs)

/-- Segment-stack pass of Go stdlib `path.Clean` on a rooted path
(an external collaborator; cleanPath always hands it a path with a leading
slash): empty and `.` segments vanish, `..` pops the previous segment
(and is dropped at the root). -/
def cleanSegs : List Str → List Str → List Str
  | stack, [] => stack.reverse
  | stack, seg :: rest =>
    if seg = [] ∨ seg = ['.'] then cleanSegs stack rest
    else if seg = ['.', '.'] then cleanSegs stack.tail rest
    else cleanSegs (seg :: stack) rest

/-- Go stdlib `path.Clean` restricted to rooted paths: the result is `/`
followed by the surviving segments (so the trailing slash is removed,
except for the root itself). -/
def pathClean (p : Str) : Str :=
  let segs := cleanSegs [] (splitOn '/' p)
  if segs = [] then ['/'] else segs.foldl (fun acc s => acc ++ '/' :: s) []

/-- Source `cleanPath`: empty path becomes `/`, a leading slash is ensured,
`path.Clean` collapses `.` and `..`, and a trailing slash is restored
except at the root. -/
def cleanPath (p : Str) : Str :=
  if p = [] then ['/']
  else
    let p' := if p.headD ' ' ≠ '/' then '/' :: p else p
    let np := pathClean p'
    if p'.getLastD ' ' = '/' ∧ np ≠ ['/'] then np ++ ['/'] else np

/-- An incoming request: method, host, URL path and raw query. -/
structure Request where
  method : Str
  host : Str
  path : Str
  rawQuery : Str
deriving DecidableEq, Repr

/-- Observable outcome of `ServeHTTP`: a redirect response written directly
by the mux, or the invocation of a handler (possibly with injected capture
bindings). -/
inductive Response where
  | redirect (location : Str) (code : Nat)
  | invoked (h : Handler) (captures : Option (List (Str × Str)))
deriving DecidableEq, Repr

/-- The `mux.handler(r).ServeHTTP(w, r)` tail of source `ServeHTTP`;
`none` models a runtime panic inside `parseSplats`. -/
def dispatch (mux : Mux) (r : Request) : Option Response :=
  (muxHandler mux r.host r.path).map (fun x => .invoked x.1 x.2)

/-- Source `(*ServeMux).ServeHTTP`: for non-CONNECT requests whose path is
not canonical, write a 301 redirect to the canonical path and return;
otherwise dispatch to the matched handler. -/
def ServeHTTP (mux : Mux) (r : Request) : Option Response :=
  if r.method ≠ "CONNECT".toList ∧ cleanPath r.path ≠ r.path then
    some (.redirect (cleanPath r.path) 301)
  else dispatch mux r

/-- Source `(*ServeMux).Handle`.  The first component is the panic message,
if any (on a panic the map is unchanged); Go's `http.StatusMovedPermanently`
is 301 and `pattern[0:n-1]` is `take (n-1)`. -/
def Handle (mux : Mux) (pattern : Str) (handler : Option Handler) :
    Option Str × Mux :=
  if pattern = [] then (some ("http: invalid pattern ".toList ++ pattern), mux)
  else if handler = none then (some "http: nil handler".toList, mux)
  else if (lookupEntry mux pattern).explicit then
    (some ("http: multiple registrations for ".toList ++ pattern), mux)
  else
    let m1 := insertEntry mux pattern ⟨true, handler⟩
    let n := pattern.length
    if 0 < n ∧ pattern.getLastD ' ' = '/' ∧
        (lookupEntry m1 (pattern.take (n - 1))).explicit = false then
      (none, insertEntry m1 (pattern.take (n - 1)) ⟨false, some (.redirect pattern 301)⟩)
    else (none, m1)

/-- Source `(*ServeMux).HandleFunc`: wraps a bare function (opaque, tagged
by `f`) as a handler and registers it via `Handle`. -/
def HandleFunc (mux : Mux) (pattern : Str) (f : Nat) : Option Str × Mux :=
  Handle mux pattern (some (.user f))

end Pat

namespace Pat

/- The path-matching test table from the source's pat_test.go, as a check
that the embedding agrees with the program's own tests. -/

example : pathMatch "/".toList "".toList = false := by decide
example : pathMatch "/".toList "/".toList = true := by decide
example : pathMatch "/".toList "/hello".toList = true := by decide
example : pathMatch "/hello/".toList "/hello".toList = false := by decide
example : pathMatch "/hello/".toList "/helloo".toList = false := by decide
example : pathMatch "/hello/".toList "/hello/".toList = true := by decide
example : pathMatch "/hello/".toList "/hello/whatever".toList = true := by decide
example : pathMatch "/:a".toList "/hello".toList = true := by decide
example : pathMatch "/:a".toList "/hello/".toList = false := by decide
example : pathMatch "/:a".toList "/world".toList = true := by decide
example : pathMatch "/:a".toList "/hello/world".toList = false := by decide
example : pathMatch "/:a/".toList "/hello/world".toList = true := by decide
example : pathMatch "/:a/".toList "/hello/world/world".toList = true := by decide
example : pathMatch "/hello/:a".toList "/hello".toList = false := by decide
example : pathMatch "/hello/:a".toList "/hello/".toList = true := by decide
example : pathMatch "/hello/:a".toList "/helloo/".toList = false := by decide
example : pathMatch "/hello/:a".toList "/hello/world".toList = true := by decide
example : pathMatch "/hello/:a/".toList "/hello/world/whatever".toList = true := by decide

example : parseSplats "/hello/:a".toList "/hello/world".toList =
    .vals [(":a".toList, "world".toList)] := by decide

/- Helper lemmas about the association-list model of the Go map. -/

theorem lookup_insert_self (m : Mux) (k : Str) (v : muxEntry) :
    lookupEntry (insertEntry m k v) k = v := by
  induction m with
  | nil => simp [insertEntry, lookupEntry]
  | cons kv rest ih =>
    obtain ⟨k', v'⟩ := kv
    by_cases hk : k' = k
    · subst hk; simp [insertEntry, lookupEntry]
    · simp [insertEntry, lookupEntry, hk, ih]

theorem lookup_insert_ne (m : Mux) (k k' : Str) (v : muxEntry) (hne : k' ≠ k) :
    lookupEntry (insertEntry m k v) k' = lookupEntry m k' := by
  induction m with
  | nil => simp [insertEntry, lookupEntry, Ne.symm hne]
  | cons kv rest ih =>
    obtain ⟨k0, v0⟩ := kv
    by_cases hk : k0 = k
    · subst hk; simp [insertEntry, lookupEntry, Ne.symm hne]
    · by_cases hk' : k0 = k'
      · subst hk'; simp [insertEntry, lookupEntry, hk]
      · simp [insertEntry, lookupEntry, hk, hk', ih]

theorem take_pred_ne (p : Str) (hp : p ≠ []) : p.take (p.length - 1) ≠ p := by
  intro h
  have hlen := congrArg List.length h
  rw [List.length_take, Nat.min_eq_left (Nat.sub_le _ _)] at hlen
  have hpos : 0 < p.length := List.length_pos.mpr hp
  omega

/-- C1 (amended): for every pattern `p` that ends in `/` and contains no
capture marker, `pathMatch p path` is true iff `path` is `p` itself or any
string that starts with `p`; the bare path with the trailing slash removed
does NOT match (it is served by the implicit redirect entry instead). -/
theorem claim1_flat_trailing (p s : Str) (hsl : p.getLastD ' ' = '/')
    (hc : p.contains ':' = false) :
    pathMatch p s = true ↔ (s = p ∨ ∃ t, s = p ++ t) := by
  have hp : p ≠ [] := fun hcon => by subst hcon; exact absurd hsl (by decide)
  have hlen : ¬(p.length = 0) := fun hcon => hp (List.length_eq_zero.mp hcon)
  have hcf : ¬(p.contains ':' = true) := fun hcon => by
    rw [hc] at hcon
    exact Bool.false_ne_true hcon
  have hslne : ¬(p.getLastD ' ' ≠ '/') := not_not.mpr hsl
  simp only [pathMatch, pathMatchFlat, if_neg hlen, if_neg hcf, if_neg hslne,
    Bool.and_eq_true, decide_eq_true_eq, beq_iff_eq]
  constructor
  · rintro ⟨hle, htake⟩
    exact Or.inr ⟨s.drop p.length,
      by conv_lhs => rw [← List.take_append_drop p.length s, htake]⟩
  · rintro (rfl | ⟨t, rfl⟩)
    · exact ⟨le_refl _, List.take_length s⟩
    · exact ⟨by simp, List.take_left p t⟩

/-- C1 counterexample: the claim asserts `matches("/hello/", "/hello")` is
true, but the code (and the repository's own test table, row 4) gives
false: the flat trailing-slash rule is a pure string-prefix check. -/
theorem claim1_counterexample :
    pathMatch "/hello/".toList "/hello".toList = false := by decide

/-- C1 witness: instantiation of the amended claim at a concrete input. -/
theorem claim1_witness :
    "/hello/".toList.contains ':' = false ∧
    (pathMatch "/hello/".toList "/hello/world".toList = true ↔
      ("/hello/world".toList = "/hello/".toList ∨
        ∃ t, "/hello/world".toList = "/hello/".toList ++ t)) :=
  ⟨by decide, claim1_flat_trailing _ _ (by decide) (by decide)⟩

/-- C2: evaluation of the code at the claim's own example.  The claim (and
the code's comment, which says only the final empty segment is dropped)
requires `matches("/x/user-:id/", "/x/abc/y")` to be false because `abc`
lacks the prefix `user-`; the code slices `_pattern[:slashes]` after
decrementing `slashes`, dropping the `user-:id` segment as well, and
returns true. -/
theorem claim2_failing_eval :
    pathMatch "/x/user-:id/".toList "/x/abc/y".toList = true := by decide

/-- C3: evaluation of the code at a failing input.  With the prefix
template `/a/b-:c/` registered, the path `/a/z/w` matches (the `b-:c`
segment is never checked, see C2), and `parseSplats` then slices the path
segment `z` from index 2, which is out of range — a Go runtime panic — so
dispatching such a request faults instead of yielding a handler invocation
or a not-found outcome. -/
theorem claim3_failing_eval :
    pathMatch "/a/b-:c/".toList "/a/z/w".toList = true ∧
    parseSplats "/a/b-:c/".toList "/a/z/w".toList = .fault ∧
    ServeHTTP (Handle [] "/a/b-:c/".toList (some (.user 7))).2
      ⟨"GET".toList, [], "/a/z/w".toList, []⟩ = none := by decide

/-- C4: for every templated pattern (one containing a capture marker),
a successful match implies the arity policy: a pattern not ending in `/`
requires the path's slash count to equal the pattern's; a pattern ending
in `/` requires strictly more slash-delimited path segments than the
pattern's slash count minus one. -/
theorem claim4_arity (p s : Str) (hc : p.contains ':' = true)
    (hm : pathMatch p s = true) :
    (p.getLastD ' ' = '/' → p.count '/' - 1 < (splitOn '/' s).length) ∧
    (p.getLastD ' ' ≠ '/' → s.count '/' = p.count '/') := by
  have hlen : ¬(p.length = 0) := by
    intro hcon
    rw [List.length_eq_zero] at hcon
    subst hcon
    exact absurd hc (by decide)
  rw [pathMatch, if_neg hlen, if_pos hc] at hm
  simp only [pathMatchSplat] at hm
  by_cases hl : p.getLastD ' ' = '/'
  · refine ⟨fun _ => ?_, fun hnl => absurd hl hnl⟩
    simp only [hl, if_pos] at hm
    by_cases hle : (splitOn '/' s).length ≤ p.count '/' - 1
    · rw [if_pos hle] at hm
      exact absurd hm (by simp)
    · exact Nat.not_le.mp hle
  · refine ⟨fun hl' => absurd hl' hl, fun _ => ?_⟩
    simp only [if_neg hl] at hm
    by_cases hcnt : s.count '/' ≠ p.count '/'
    · rw [if_pos hcnt] at hm
      exact absurd hm (by simp)
    · exact not_not.mp hcnt

/-- C4 witness: instantiation at the exact-arity template `/hello/:a`. -/
theorem claim4_witness :
    "/hello/x".toList.count '/' = "/hello/:a".toList.count '/' :=
  (claim4_arity "/hello/:a".toList "/hello/x".toList (by decide) (by decide)).2
    (by decide)

/-- C5: evaluation of the code at a failing input.  The prefix template
`/p-:x/` matches the path `/q` (the `p-:x` segment is never checked, see
C2), and `extractCaptures` then slices the path segment `q` from index 2,
out of range — a Go runtime panic — instead of binding `:x` as the claim
describes for every matching pair. -/
theorem claim5_failing_eval :
    pathMatch "/p-:x/".toList "/q".toList = true ∧
    parseSplats "/p-:x/".toList "/q".toList = .fault := by decide

/-- Loop invariant of the longest-match scan: starting from an accumulator
that is either the initial `(0, "", nil)` or a genuine match of recorded
length, a final answer with a non-nil handler is a match whose length bounds
the length of every matching registered pattern. -/
theorem matchLoopMux_spec (s : Str) (m : Mux) :
    ∀ (n : Nat) (pat : Str) (h0 : Option Handler) (k : Str) (hh : Handler),
      (∀ kv ∈ m, kv.2.h ≠ none) →
      (h0 = none → n = 0) →
      (∀ g, h0 = some g → pathMatch pat s = true ∧ n = pat.length) →
      matchLoopMux s m n pat h0 = (k, some hh) →
      pathMatch k s = true ∧ n ≤ k.length ∧
        ∀ kv ∈ m, pathMatch kv.1 s = true → kv.1.length ≤ k.length := by
  induction m with
  | nil =>
    intro n pat h0 k hh _ _ hsome hm
    simp only [matchLoopMux, Prod.mk.injEq] at hm
    obtain ⟨rfl, h2⟩ := hm
    obtain ⟨hpm, hn⟩ := hsome hh h2
    exact ⟨hpm, hn ▸ le_refl _, by simp⟩
  | cons kv rest ih =>
    intro n pat h0 k hh hnn hn0 hsome hm
    obtain ⟨k0, v0⟩ := kv
    simp only [matchLoopMux] at hm
    by_cases hpm : pathMatch k0 s = true
    · rw [if_pos hpm] at hm
      by_cases hup : h0 = none ∨ n < k0.length
      · rw [if_pos hup] at hm
        have hv0 : v0.h ≠ none := hnn (k0, v0) (by simp)
        obtain ⟨hk, hle, hmax⟩ := ih k0.length k0 v0.h k hh
          (fun kv hkv => hnn kv (List.mem_cons_of_mem _ hkv))
          (fun hcon => absurd hcon hv0)
          (fun g _ => ⟨hpm, rfl⟩) hm
        refine ⟨hk, ?_, ?_⟩
        · rcases hup with hup | hup
          · rw [hn0 hup]; exact Nat.zero_le _
          · exact le_trans (le_of_lt hup) hle
        · intro kv hkv hkvm
          rcases List.mem_cons.mp hkv with rfl | hkv
          · exact hle
          · exact hmax kv hkv hkvm
      · rw [if_neg hup] at hm
        push_neg at hup
        obtain ⟨hk, hle, hmax⟩ := ih n pat h0 k hh
          (fun kv hkv => hnn kv (List.mem_cons_of_mem _ hkv)) hn0 hsome hm
        refine ⟨hk, hle, ?_⟩
        intro kv hkv hkvm
        rcases List.mem_cons.mp hkv with rfl | hkv
        · exact le_trans hup.2 hle
        · exact hmax kv hkv hkvm
    · rw [if_neg hpm] at hm
      obtain ⟨hk, hle, hmax⟩ := ih n pat h0 k hh
        (fun kv hkv => hnn kv (List.mem_cons_of_mem _ hkv)) hn0 hsome hm
      refine ⟨hk, hle, ?_⟩
      intro kv hkv hkvm
      rcases List.mem_cons.mp hkv with rfl | hkv
      · exact absurd hkvm hpm
      · exact hmax kv hkv hkvm

/-- C6: if `match(s)` returns pattern `k` with a non-nil handler, then
`pathMatch k s` holds and every registered pattern matching `s` has length
at most `k`'s — the longest matching pattern wins.  (All entries installed
by `Handle` carry non-nil handlers, whence the hypothesis.) -/
theorem claim6_longest_wins (m : Mux) (s k : Str) (hh : Handler)
    (hnn : ∀ kv ∈ m, kv.2.h ≠ none)
    (hm : matchMux m s = (k, some hh)) :
    pathMatch k s = true ∧
    ∀ kv ∈ m, pathMatch kv.1 s = true → kv.1.length ≤ k.length := by
  obtain ⟨h1, _, h3⟩ := matchLoopMux_spec s m 0 [] none k hh hnn (fun _ => rfl)
    (fun g hg => Option.noConfusion hg) hm
  exact ⟨h1, h3⟩

/-- C6 witness: with `/images/` and `/images/thumbnails/` registered, the
request path `/images/thumbnails/x` resolves to `/images/thumbnails/`. -/
theorem claim6_witness :
    pathMatch "/images/thumbnails/".toList "/images/thumbnails/x".toList = true ∧
    ∀ kv ∈ (Handle (Handle [] "/images/".toList (some (.user 1))).2
        "/images/thumbnails/".toList (some (.user 2))).2,
      pathMatch kv.1 "/images/thumbnails/x".toList = true →
        kv.1.length ≤ "/images/thumbnails/".toList.length :=
  claim6_longest_wins _ _ _ (.user 2) (by decide) (by decide)

/-- C7: after a successful `Handle(p, h)` where `p` ends in `/` and no
explicit entry exists for the stripped pattern, the registry holds an
implicit (non-explicit) entry at the stripped pattern whose handler is a
permanent redirect (301) to `p`; concretely, after registering `/tree/`
the path `/tree` resolves to that redirect, a subsequent explicit
`Handle("/tree", h2)` succeeds, and `/tree` then resolves to `h2`. -/
theorem claim7_implicit_redirect (m : Mux) (p : Str) (h : Handler)
    (hsl : p.getLastD ' ' = '/')
    (hex : (lookupEntry m p).explicit = false)
    (hstr : (lookupEntry m (p.take (p.length - 1))).explicit = false) :
    ((Handle m p (some h)).1 = none ∧
      lookupEntry (Handle m p (some h)).2 (p.take (p.length - 1)) =
        ⟨false, some (.redirect p 301)⟩) ∧
    (matchMux (Handle [] "/tree/".toList (some (.user 1))).2 "/tree".toList =
      ("/tree".toList, some (.redirect "/tree/".toList 301)) ∧
     (Handle (Handle [] "/tree/".toList (some (.user 1))).2 "/tree".toList
        (some (.user 2))).1 = none ∧
     matchMux (Handle (Handle [] "/tree/".toList (some (.user 1))).2
        "/tree".toList (some (.user 2))).2 "/tree".toList =
      ("/tree".toList, some (.user 2))) := by
  refine ⟨?_, by decide, by decide, by decide⟩
  have hp : p ≠ [] := fun hcon => by subst hcon; exact absurd hsl (by decide)
  have hh : ¬(some h = (none : Option Handler)) := by simp
  have hexf : ¬((lookupEntry m p).explicit = true) := fun hcon => by
    rw [hex] at hcon
    exact Bool.false_ne_true hcon
  have hsne : p.take (p.length - 1) ≠ p := take_pred_ne p hp
  have hcond : 0 < p.length ∧ p.getLastD ' ' = '/' ∧
      (lookupEntry (insertEntry m p ⟨true, some h⟩)
        (p.take (p.length - 1))).explicit = false := by
    refine ⟨List.length_pos.mpr hp, hsl, ?_⟩
    rw [lookup_insert_ne _ _ _ _ hsne]
    exact hstr
  simp only [Handle, if_neg hp, if_neg hh, if_neg hexf, if_pos hcond]
  exact ⟨by trivial, lookup_insert_self _ _ _⟩

/-- C7 witness: instantiation at the empty registry and pattern `/x/`. -/
theorem claim7_witness :
    (Handle [] "/x/".toList (some (.user 5))).1 = none ∧
    lookupEntry (Handle [] "/x/".toList (some (.user 5))).2
      ("/x/".toList.take ("/x/".toList.length - 1)) =
      ⟨false, some (.redirect "/x/".toList 301)⟩ :=
  (claim7_implicit_redirect [] "/x/".toList (.user 5)
    (by decide) (by decide) (by decide)).1

/-- C8: `Handle(pattern, handler)` panics iff the pattern is empty, the
handler is nil, or an explicit entry already exists for the pattern; on a
panic the registry map is unchanged, and otherwise an explicit entry
mapping the pattern to the handler is installed. -/
theorem claim8_handle_panics (m : Mux) (p : Str) (h : Option Handler) :
    ((Handle m p h).1 ≠ none ↔
      (p = [] ∨ h = none ∨ (lookupEntry m p).explicit = true)) ∧
    ((Handle m p h).1 ≠ none → (Handle m p h).2 = m) ∧
    ((Handle m p h).1 = none → lookupEntry (Handle m p h).2 p = ⟨true, h⟩) := by
  by_cases hp : p = []
  · subst hp; simp [Handle]
  · by_cases hh : h = none
    · simp [Handle, hp, hh]
    · by_cases hex : (lookupEntry m p).explicit = true
      · simp [Handle, hp, hh, hex]
      · have hpne : p ≠ [] := hp
        simp only [Handle, if_neg hp, if_neg hh, if_neg hex]
        by_cases hcond : 0 < p.length ∧ p.getLastD ' ' = '/' ∧
            (lookupEntry (insertEntry m p ⟨true, h⟩)
              (p.take (p.length - 1))).explicit = false
        · rw [if_pos hcond]
          refine ⟨by simp [hp, hh, hex], by simp, fun _ => ?_⟩
          rw [lookup_insert_ne _ _ _ _ (Ne.symm (take_pred_ne p hpne))]
          exact lookup_insert_self _ _ _
        · rw [if_neg hcond]
          exact ⟨by simp [hp, hh, hex], by simp, fun _ => lookup_insert_self _ _ _⟩

/-- C8 witness: a successful registration installs the explicit entry. -/
theorem claim8_witness :
    lookupEntry (Handle [] "/a".toList (some (.user 0))).2 "/a".toList =
      ⟨true, some (.user 0)⟩ :=
  (claim8_handle_panics [] "/a".toList (some (.user 0))).2.2 (by decide)

/-- C9: for a request whose method is not CONNECT and whose path differs
from its canonical form, `ServeHTTP` responds with a permanent redirect
(301) to the canonical path and invokes no registered handler; CONNECT
requests bypass canonicalization entirely.  The trailing conjuncts pin the
canonical form: empty path becomes `/`, a leading slash is ensured, `.` and
`..` segments are collapsed, and a trailing slash is preserved except at
the root. -/
theorem claim9_serveHTTP (m : Mux) (r : Request) :
    (r.method ≠ "CONNECT".toList → cleanPath r.path ≠ r.path →
      ServeHTTP m r = some (.redirect (cleanPath r.path) 301) ∧
      ∀ hh q, ServeHTTP m r ≠ some (.invoked hh q)) ∧
    (r.method = "CONNECT".toList → ServeHTTP m r = dispatch m r) ∧
    cleanPath [] = "/".toList ∧
    cleanPath "a/b".toList = "/a/b".toList ∧
    cleanPath "/a/./b/../c/".toList = "/a/c/".toList ∧
    cleanPath "/".toList = "/".toList := by
  refine ⟨?_, ?_, by decide, by decide, by decide, by decide⟩
  · intro hmeth hpath
    have hred : ServeHTTP m r = some (.redirect (cleanPath r.path) 301) := by
      simp only [ServeHTTP, if_pos (And.intro hmeth hpath)]
    exact ⟨hred, fun hh q => by rw [hred]; simp⟩
  · intro hmeth
    simp [ServeHTTP, hmeth]

/-- C9 witness: a GET request for `/a/../b` is redirected to `/b`. -/
theorem claim9_witness :
    ServeHTTP [] ⟨"GET".toList, [], "/a/../b".toList, []⟩ =
      some (.redirect "/b".toList 301) := by
  have h := (claim9_serveHTTP [] ⟨"GET".toList, [], "/a/../b".toList, []⟩).1
    (by decide) (by decide)
  have hc : cleanPath "/a/../b".toList = "/b".toList := by decide
  rw [← hc]
  exact h.1

/-- C10: once an explicit entry exists for a pattern string, no later
`Handle` or `HandleFunc` call changes or removes it — a duplicate explicit
registration panics before writing, and the implicit-redirect side effect
overwrites an entry only when that entry is not explicit. -/
theorem claim10_explicit_stable (m : Mux) (p q : Str) (h : Option Handler)
    (f : Nat) (hq : (lookupEntry m q).explicit = true) :
    lookupEntry (Handle m p h).2 q = lookupEntry m q ∧
    lookupEntry (HandleFunc m p f).2 q = lookupEntry m q := by
  have main : ∀ h' : Option Handler,
      lookupEntry (Handle m p h').2 q = lookupEntry m q := by
    intro h'
    by_cases hp : p = []
    · simp [Handle, hp]
    · by_cases hh : h' = none
      · simp [Handle, hp, hh]
      · by_cases hex : (lookupEntry m p).explicit = true
        · simp [Handle, hp, hh, hex]
        · have hqp : q ≠ p := by rintro rfl; exact hex hq
          simp only [Handle, if_neg hp, if_neg hh, if_neg hex]
          by_cases hcond : 0 < p.length ∧ p.getLastD ' ' = '/' ∧
              (lookupEntry (insertEntry m p ⟨true, h'⟩)
                (p.take (p.length - 1))).explicit = false
          · rw [if_pos hcond]
            have hqs : q ≠ p.take (p.length - 1) := by
              rintro rfl
              have hfalse := hcond.2.2
              rw [lookup_insert_ne _ _ _ _ hqp, hq] at hfalse
              exact absurd hfalse (by decide)
            rw [lookup_insert_ne _ _ _ _ hqs]
            exact lookup_insert_ne _ _ _ _ hqp
          · rw [if_neg hcond]
            exact lookup_insert_ne _ _ _ _ hqp
  exact ⟨main h, by simp only [HandleFunc]; exact main (some (.user f))⟩

/-- C10 witness: registering `/a/` after an explicit `/a` leaves the
explicit `/a` entry untouched (the implicit redirect is suppressed). -/
theorem claim10_witness :
    lookupEntry (Handle [("/a".toList, ⟨true, some (.user 1)⟩)] "/a/".toList
        (some (.user 2))).2 "/a".toList =
      lookupEntry [("/a".toList, ⟨true, some (.user 1)⟩)] "/a".toList ∧
    lookupEntry (HandleFunc [("/a".toList, ⟨true, some (.user 1)⟩)] "/a/".toList
        3).2 "/a".toList =
      lookupEntry [("/a".toList, ⟨true, some (.user 1)⟩)] "/a".toList :=
  claim10_explicit_stable _ _ _ (some (.user 2)) 3 (by decide)

end Pat
